import Mathlib

/-!
Verification of the live change-detection and classification pipeline of the
`arcsii` repository (`internal/watcher/watcher.go`, `internal/ui/model.go`).

Go strings are modelled as `List Char` (the paths and names in question are
plain byte strings); file contents are modelled as `List Nat` (byte values),
which matches the Go code's byte-level operations (`len`, slicing, the
null-byte scan).  The Go standard-library string predicates
`strings.Contains`, `strings.HasPrefix`, `strings.HasSuffix` are rendered as
decidable infix/prefix/suffix tests on lists.
-/

/-- Go string, modelled as a list of characters. -/
abbrev GoStr := List Char

/-- Convenience conversion from a Lean string literal to a `GoStr`. -/
def gs (s : String) : GoStr := s.toList

/-- `strings.Contains(s, sub)`. -/
def goContains (s sub : GoStr) : Bool := decide (sub <:+: s)

/-- `strings.HasSuffix(s, suf)`. -/
def goHasSuffix (s suf : GoStr) : Bool := decide (suf <:+ s)

/-- `strings.HasPrefix(s, pre)`. -/
def goStartsWith (s pre : GoStr) : Bool := decide (pre <+: s)

/-- `filepath.Base(p)` for the unix separator: empty path gives ".",
trailing separators are stripped, then everything after the last separator
is returned ("/" if nothing remains). -/
def filepathBase (p : GoStr) : GoStr :=
  if p = [] then gs "."
  else
    let q := (p.reverse.dropWhile (fun c => c == '/')).reverse
    if q = [] then gs "/"
    else (q.reverse.takeWhile (fun c => !(c == '/'))).reverse

/-- `detectGitOperation(path, name)` from `internal/watcher/watcher.go`:
identifies git operations from file changes by string inspection alone.
Returns the empty string for "not an interesting git operation". -/
def detectGitOperation (path name : GoStr) : GoStr :=
  -- Skip lock files
  if goHasSuffix name (gs ".lock") then gs ""
  -- COMMIT_EDITMSG / MERGE_MSG are created when committing
  else if name = gs "COMMIT_EDITMSG" || name = gs "MERGE_MSG" then gs "commit"
  -- refs/heads changes indicate a commit was made
  else if goContains path (gs "refs/heads") || goContains path (gs "logs/refs/heads") then
    gs "commit"
  -- refs/remotes changes indicate push/pull
  else if goContains path (gs "refs/remotes") || goContains path (gs "logs/refs/remotes") then
    gs "push"
  else if name = gs "FETCH_HEAD" then gs "fetch"
  else if name = gs "ORIG_HEAD" then gs "pull"
  else if name = gs "MERGE_HEAD" then gs "merge"
  else if goContains path (gs "rebase-merge") || goContains path (gs "rebase-apply") then
    gs "rebase"
  else if goContains path (gs "refs/stash") || name = gs "stash" then gs "stash"
  -- HEAD file changes mean checkout/branch switch
  else if name = gs "HEAD" && !goContains path (gs "logs") then gs "checkout"
  else gs ""

/-- `isBinary(data)` from the source: true when the first 512 bytes contain
a null byte. -/
def isBinary (data : List Nat) : Bool := (data.take 512).contains 0

/-- Byte values of a Lean string literal (the code's string constants are
ASCII, so character code points equal byte values). -/
def bytesOf (s : String) : List Nat := s.toList.map Char.toNat

/-- `strings.Split(s, sep)` for a one-byte separator, at byte level:
splitting the empty string yields one empty part; every separator byte
starts a new part. -/
def splitOnByte (sep : Nat) : List Nat → List (List Nat)
  | [] => [[]]
  | b :: rest =>
    if b = sep then [] :: splitOnByte sep rest
    else
      match splitOnByte sep rest with
      | [] => [[b]]
      | l :: ls => (b :: l) :: ls

/-- ASCII whitespace, as in Go's `strings.TrimSpace` fast path
(space, tab, newline, vertical tab, form feed, carriage return). -/
def isSpaceByte (b : Nat) : Bool :=
  b = 32 || b = 9 || b = 10 || b = 11 || b = 12 || b = 13

/-- `strings.TrimSpace(line)`, at byte level for ASCII whitespace. -/
def trimSpace (l : List Nat) : List Nat :=
  ((l.dropWhile isSpaceByte).reverse.dropWhile isSpaceByte).reverse

/-- The truncation step of `getFilePreview`: lines longer than 60 bytes are
cut to their first 57 bytes plus an ellipsis `"..."`. -/
def truncLine (line : List Nat) : List Nat :=
  if line.length > 60 then line.take 57 ++ bytesOf "..." else line

/-- The collection loop of `getFilePreview`: walk the lines from the end
(`revLines` is the line list reversed), prepending each non-blank trimmed
(and truncated) line until `numLines` lines are collected. -/
def previewLoop (numLines : Nat) : List (List Nat) → List (List Nat) → List (List Nat)
  | [], acc => acc
  | l :: rest, acc =>
    if acc.length < numLines then
      let t := trimSpace l
      if t = [] then previewLoop numLines rest acc
      else previewLoop numLines rest (truncLine t :: acc)
    else acc

/-- `getFilePreview(path, numLines)` from the source, with the file read
modelled as an input: `none` stands for a read error (returns nil), and the
`preview` slice that is never appended to (no non-blank lines) is the Go
nil slice, also modelled as `none`. -/
def getFilePreview (content : Option (List Nat)) (numLines : Nat) :
    Option (List (List Nat)) :=
  match content with
  | none => none
  | some data =>
    if isBinary data then some [bytesOf "[binary file]"]
    else
      let lines := splitOnByte 10 data
      let preview := previewLoop numLines lines.reverse []
      if preview = [] then none else some preview

/-- The preview contract stated by the spec, written from its words: if
the leading 512 bytes contain a null byte, a single sentinel line;
otherwise the last up-to-`maxLines` non-blank trimmed lines in original
order, truncated; nothing at all when no non-blank line exists. -/
def previewSpec (data : List Nat) (maxLines : Nat) : Option (List (List Nat)) :=
  if isBinary data then some [bytesOf "[binary file]"]
  else
    let nonBlank :=
      ((splitOnByte 10 data).map trimSpace).filter (fun t => decide (¬ t = []))
    let lastK := (nonBlank.reverse.take maxLines).reverse
    if lastK = [] then none else some (lastK.map truncLine)

/-- The five fsnotify mutation bits tested by the pipeline's switch. -/
structure FsnotifyOp where
  create : Bool
  write : Bool
  remove : Bool
  rename : Bool
  chmod : Bool
deriving DecidableEq

/-- A raw OS notification: the absolute path (`event.Name`) and the
mutation bits (`event.Op`). -/
structure RawEvent where
  name : GoStr
  op : FsnotifyOp
deriving DecidableEq

/-- The filesystem answers the pipeline consults for one notification:
the `os.Stat` result (directory flag and size; `none` = error), the
`os.ReadFile` result for the preview, the `filepath.Rel(root, path)`
result, and the current time. -/
structure Env where
  statResult : Option (Bool × Int)
  fileContent : Option (List Nat)
  relResult : GoStr
  now : Nat
deriving DecidableEq

/-- `FileEvent` from the source (the published ChangeEvent). The Go nil
`Preview` slice is `none`. -/
structure FileEvent where
  path : GoStr
  name : GoStr
  operation : GoStr
  time : Nat
  size : Int
  isGitOp : Bool
  gitOp : GoStr
  preview : Option (List (List Nat))
deriving DecidableEq

/-- The mutation-kind switch of the pipeline loop: first matching bit wins;
chmod-only events and unrecognized bits produce no event (`none`). -/
def opKind (o : FsnotifyOp) : Option GoStr :=
  if o.create then some (gs "created")
  else if o.write then some (gs "modified")
  else if o.remove then some (gs "deleted")
  else if o.rename then some (gs "renamed")
  else none

/-- One iteration of the `Start` loop of `internal/watcher/watcher.go` for a
raw notification: `none` means the notification is discarded, `some fe`
means `fe` is sent on the Events channel.  The watch-registration side
effect for a created directory does not influence the emitted event and is
covered by the `WatchSet` embedding below. -/
def processEvent (root : GoStr) (env : Env) (ev : RawEvent) : Option FileEvent :=
  let name := filepathBase ev.name
  -- Skip temp files used by editors for safe writes
  if goContains name (gs ".tmp") || goHasSuffix name (gs "~") ||
      goStartsWith name (gs "#") then none
  else
    -- Check if this is a git operation
    let isGitOp := goContains ev.name (gs ".git")
    let gitOp := if isGitOp then detectGitOperation ev.name name else gs ""
    if isGitOp && gitOp = gs "" then none          -- skip uninteresting git changes
    else if !isGitOp && goStartsWith name (gs ".") then none  -- skip other hidden files
    else
      match opKind ev.op with
      | none => none
      | some op =>
        let size : Int := match env.statResult with
          | some (_, s) => s
          | none => 0
        let rel := if env.relResult = [] then ev.name else env.relResult
        let preview :=
          if !isGitOp && (op = gs "modified" || op = gs "created") then
            getFilePreview env.fileContent 3
          else none
        some { path := rel, name := name, operation := op, time := env.now,
               size := size, isGitOp := isGitOp, gitOp := gitOp,
               preview := preview }

/-- The pipeline loop over a finite trace of notifications, each with the
filesystem state observed while handling it; events are sent to the
outbound channel in processing order. -/
def runLoop (root : GoStr) : List (Env × RawEvent) → List FileEvent
  | [] => []
  | (env, ev) :: rest =>
    match processEvent root env ev with
    | none => runLoop root rest
    | some fe => fe :: runLoop root rest

/-- `EventDisplay` from `internal/ui/model.go`: a file event wrapped with
display state. -/
structure EventDisplay where
  event : FileEvent
  age : Nat
  highlight : Bool
deriving DecidableEq

/-- The display-model state touched by the `fileEventMsg` branch of
`Update` in `internal/ui/model.go`. -/
structure UIModel where
  events : List EventDisplay
  gitAnimation : GoStr
  gitAnimTick : Nat
  status : GoStr
deriving DecidableEq

/-- The `fileEventMsg` branch of `Update`: trigger the git animation when
applicable, insert the new event at the front, keep only the first 50
entries, and refresh the status line. -/
def handleFileEvent (m : UIModel) (event : FileEvent) : UIModel :=
  let m1 :=
    if event.isGitOp && !(event.gitOp = gs "") then
      { m with gitAnimation := event.gitOp, gitAnimTick := 0 }
    else m
  let m2 := { m1 with events := { event := event, age := 0, highlight := true } :: m1.events }
  let m3 :=
    if m2.events.length > 50 then { m2 with events := m2.events.take 50 } else m2
  let st :=
    if event.isGitOp then gs "Git " ++ event.gitOp ++ gs " detected!"
    else gs "File " ++ event.operation ++ gs ": " ++ event.name
  { m3 with status := st }

/-- The decision the walk callback of `New` takes for one directory entry
(`internal/watcher/watcher.go`, lines 58-89): prune the subtree, skip a
single file, register a watch on a directory, or accept an ordinary file. -/
inductive EntryDecision where
  | skipDirTree
  | skipEntry
  | watchDir
  | acceptFile
deriving DecidableEq

/-- The fixed ignore-list of the walk callback. -/
def ignoreNames : List GoStr :=
  [gs "node_modules", gs "vendor", gs "dist", gs "__pycache__"]

/-- The filtering logic of the walk callback in `New`: the ignore-list
check, then the hidden-entry check with the `.git` substring exception
(`inGitDir := strings.Contains(path, ".git")`), then watch directories and
accept files. -/
def walkFilter (path name : GoStr) (isDir : Bool) : EntryDecision :=
  if ignoreNames.contains name then
    if isDir then .skipDirTree else .skipEntry
  else if goStartsWith name (gs ".") && !(name = gs ".git") &&
      !goContains path (gs ".git") then
    if isDir then .skipDirTree else .skipEntry
  else if isDir then .watchDir else .acceptFile

/-- The value a `filepath.WalkFunc` returns, as the walk plumbing sees it:
nil, `filepath.SkipDir`, or a real error. -/
inductive WalkRes where
  | ok
  | skipDir
  | fail
deriving DecidableEq

/-- A filesystem entry as seen by `filepath.Walk`: a file, a directory
(whose listing may fail: `readErr`), or an entry whose `lstat` fails. -/
inductive FsEntry where
  | file (name : GoStr)
  | dir (name : GoStr) (readErr : Bool) (entries : List FsEntry)
  | statErr (name : GoStr)

/-- `filepath.Join(dir, name)` for clean components. -/
def fsJoin (dir name : GoStr) : GoStr := dir ++ '/' :: name

/-- The walk callback of `New` (`func(path, info, err)`): a walk error for
the entry is swallowed (`if err != nil { return nil }`); otherwise the
filter runs, and for an accepted directory `fsWatcher.Add` is attempted —
`addOK` says whether it succeeds — incrementing the watch count on
success only.  Returns the count increment and the callback's result. -/
def newWalkFn (addOK : GoStr → Bool) (path name : GoStr) (isDir : Bool)
    (errIn : Bool) : Nat × WalkRes :=
  if errIn then (0, .ok)
  else
    match walkFilter path name isDir with
    | .skipDirTree => (0, .skipDir)
    | .skipEntry => (0, .ok)
    | .watchDir => (if addOK path then 1 else 0, .ok)
    | .acceptFile => (0, .ok)

mutual
/-- `filepath.walk(path, info, walkFn)` instantiated with the callback of
`New`: a non-directory is passed to the callback; for a directory the
callback runs first (receiving the readdir error, if any), recursion stops
without error when the listing failed or the callback pruned the subtree,
and otherwise the children are visited in order. -/
def goWalk (addOK : GoStr → Bool) (path : GoStr) : FsEntry → Nat × WalkRes
  | .statErr n => newWalkFn addOK path n false true
  | .file n => newWalkFn addOK path n false false
  | .dir n readErr entries =>
    let r1 := newWalkFn addOK path n true readErr
    if readErr || !(r1.2 = WalkRes.ok) then (r1.1, r1.2)
    else
      let r2 := goWalkChildren addOK path entries
      (r1.1 + r2.1, r2.2)

/-- The child loop of `filepath.walk`: a child whose `lstat` fails is
reported to the callback and its non-SkipDir error would propagate; a
file child's error (including SkipDir) propagates; a directory child's
SkipDir is swallowed. -/
def goWalkChildren (addOK : GoStr → Bool) (dirPath : GoStr) :
    List FsEntry → Nat × WalkRes
  | [] => (0, .ok)
  | FsEntry.statErr n :: rest =>
    let r := newWalkFn addOK (fsJoin dirPath n) n false true
    if !(r.2 = WalkRes.ok) && !(r.2 = WalkRes.skipDir) then (r.1, r.2)
    else
      let r' := goWalkChildren addOK dirPath rest
      (r.1 + r'.1, r'.2)
  | FsEntry.file n :: rest =>
    let r := goWalk addOK (fsJoin dirPath n) (FsEntry.file n)
    if !(r.2 = WalkRes.ok) then (r.1, r.2)
    else
      let r' := goWalkChildren addOK dirPath rest
      (r.1 + r'.1, r'.2)
  | FsEntry.dir n re es :: rest =>
    let r := goWalk addOK (fsJoin dirPath n) (FsEntry.dir n re es)
    if !(r.2 = WalkRes.ok) && !(r.2 = WalkRes.skipDir) then (r.1, r.2)
    else
      let r' := goWalkChildren addOK dirPath rest
      (r.1 + r'.1, r'.2)
end

/-- `filepath.Walk(root, fn)`: a failing root `lstat` is reported to the
callback (the `FsEntry.statErr` case of `goWalk`), and a `SkipDir` result
is converted to nil. -/
def goWalkTop (addOK : GoStr → Bool) (rootPath : GoStr) (root : FsEntry) :
    Nat × WalkRes :=
  let r := goWalk addOK rootPath root
  (r.1, if r.2 = WalkRes.skipDir then WalkRes.ok else r.2)

/-- `New(root)` from the source, reduced to its observable
success/failure and watch count: creation of the fsnotify watcher may fail
(`newWatcherErr`, a hard error); then the recursive walk runs; a non-nil
walk result would be returned as an error.  The `filepath.Abs` fallback
and the best-effort force-adds of the `.git` subdirectories never fail
`New` and do not change `WatchCount`.  `none` models `New` returning a
non-nil error; `some c` models success with `WatchCount = c`. -/
def NewWatcher (newWatcherErr : Bool) (addOK : GoStr → Bool)
    (rootPath : GoStr) (root : FsEntry) : Option Nat :=
  if newWatcherErr then none
  else
    let r := goWalkTop addOK rootPath root
    if !(r.2 = WalkRes.ok) then none else some r.1

/-- Splitting a `GoStr` on a separator character (used to express the
spec-side notion of path components). -/
def splitOnChar (sep : Char) : GoStr → List GoStr
  | [] => [[]]
  | c :: rest =>
    if c = sep then [] :: splitOnChar sep rest
    else
      match splitOnChar sep rest with
      | [] => [[c]]
      | l :: ls => (c :: l) :: ls

/-- Modelled from the spec: an entry is "located inside the `.git`
directory" when some ancestor path component (every component but the
last) equals `.git`. -/
def insideDotGit (path : GoStr) : Bool :=
  (splitOnChar '/' path).dropLast.contains (gs ".git")

/-- Modelled from the spec: a path is "inside a logs directory" when some
ancestor path component equals `logs`. -/
def insideLogsDir (path : GoStr) : Bool :=
  (splitOnChar '/' path).dropLast.contains (gs "logs")

/-! Helper lemmas. -/

lemma goContains_false_mono {s a b : GoStr} (hab : a <:+: b)
    (h : goContains s a = false) : goContains s b = false := by
  simp only [goContains, decide_eq_false_iff_not] at h ⊢
  intro hb
  exact h (hab.trans hb)

lemma newWalkFn_not_fail (addOK : GoStr → Bool) (path name : GoStr)
    (isDir errIn : Bool) :
    (newWalkFn addOK path name isDir errIn).2 = WalkRes.ok ∨
    (newWalkFn addOK path name isDir errIn).2 = WalkRes.skipDir := by
  unfold newWalkFn
  split
  · exact Or.inl rfl
  · split <;> simp

lemma newWalkFn_file_ok (addOK : GoStr → Bool) (path name : GoStr)
    (errIn : Bool) : (newWalkFn addOK path name false errIn).2 = WalkRes.ok := by
  unfold newWalkFn
  split
  · rfl
  · unfold walkFilter
    split_ifs <;> trivial

mutual
theorem goWalk_no_error (addOK : GoStr → Bool) (path : GoStr) :
    ∀ t : FsEntry, (goWalk addOK path t).2 = WalkRes.ok ∨
      (goWalk addOK path t).2 = WalkRes.skipDir
  | .statErr n => by simp [goWalk, newWalkFn]
  | .file n => Or.inl (newWalkFn_file_ok addOK path n false)
  | .dir n readErr entries => by
    have hc := goWalkChildren_no_error addOK path entries
    have hn := newWalkFn_not_fail addOK path n true readErr
    unfold goWalk
    dsimp only
    split
    · exact hn
    · exact Or.inl hc

theorem goWalkChildren_no_error (addOK : GoStr → Bool) (dirPath : GoStr) :
    ∀ ts : List FsEntry, (goWalkChildren addOK dirPath ts).2 = WalkRes.ok
  | [] => rfl
  | FsEntry.statErr n :: rest => by
    have ih := goWalkChildren_no_error addOK dirPath rest
    unfold goWalkChildren
    dsimp only
    split
    · rename_i hcond
      simp [newWalkFn] at hcond
    · exact ih
  | FsEntry.file n :: rest => by
    have ih := goWalkChildren_no_error addOK dirPath rest
    have hf := newWalkFn_file_ok addOK (fsJoin dirPath n) n false
    unfold goWalkChildren
    dsimp only
    split
    · rename_i hcond
      rw [show goWalk addOK (fsJoin dirPath n) (FsEntry.file n) =
            newWalkFn addOK (fsJoin dirPath n) n false false from rfl] at hcond
      simp [hf] at hcond
    · exact ih
  | FsEntry.dir n re es :: rest => by
    have ih := goWalkChildren_no_error addOK dirPath rest
    have hd := goWalk_no_error addOK (fsJoin dirPath n) (FsEntry.dir n re es)
    unfold goWalkChildren
    dsimp only
    split
    · rename_i hcond
      rcases hd with h | h <;> simp [h] at hcond
    · exact ih
end

/-! Claim theorems. -/

/-- C9: after the display model handles any file event message, the event
feed list contains the newly received event at index 0 (newest first) and
its length never exceeds 50 — for every model state and incoming event. -/
theorem c9_feed_invariant (m : UIModel) (event : FileEvent) :
    (handleFileEvent m event).events.head? =
      some { event := event, age := 0, highlight := true } ∧
    (handleFileEvent m event).events.length ≤ 50 := by
  unfold handleFileEvent
  dsimp only
  constructor
  · split <;> split <;> rfl
  · split <;> split <;> rename_i hlen <;> simp_all

/-- C8: the pipeline loop publishes events in the order of the underlying
notifications, with no reordering across a split of the trace, each event
the image of exactly one notification (no coalescing), and two identical
successive write notifications each produce their own event. -/
theorem c8_order_no_coalesce (root : GoStr) :
    (∀ pre post : List (Env × RawEvent),
        runLoop root (pre ++ post) = runLoop root pre ++ runLoop root post) ∧
    (∀ inputs : List (Env × RawEvent),
        runLoop root inputs =
          inputs.filterMap (fun p => processEvent root p.1 p.2)) ∧
    (∀ (env : Env) (ev : RawEvent) (fe : FileEvent),
        processEvent root env ev = some fe →
        runLoop root [(env, ev), (env, ev)] = [fe, fe]) := by
  have hfm : ∀ inputs : List (Env × RawEvent),
      runLoop root inputs = inputs.filterMap (fun p => processEvent root p.1 p.2) := by
    intro inputs
    induction inputs with
    | nil => rfl
    | cons p rest ih =>
      obtain ⟨env, ev⟩ := p
      unfold runLoop
      rw [ih, List.filterMap_cons]
      cases processEvent root env ev <;> rfl
  refine ⟨?_, hfm, ?_⟩
  · intro pre post
    rw [hfm, hfm, hfm, List.filterMap_append]
  · intro env ev fe h
    simp [runLoop, h]

/-- C2 counterexample: a root whose `lstat` fails (the initial recursive
walk cannot open the root) does NOT make `New` fail — the walk callback
swallows the error, so construction succeeds with zero watches, refuting
the claim that such roots produce a non-nil error. -/
theorem c2_counterexample :
    NewWatcher false (fun _ => true) (gs "/r") (FsEntry.statErr (gs "/r")) =
      some 0 := rfl

/-- C2 amended: watcher construction fails exactly when the OS watch
primitive cannot be created; every error of the initial recursive walk
(including a root that cannot be opened) is swallowed by the walk callback
and never reaches the caller. -/
theorem c2_walk_errors_swallowed (newWatcherErr : Bool) (addOK : GoStr → Bool)
    (rootPath : GoStr) (root : FsEntry) :
    NewWatcher newWatcherErr addOK rootPath root = none ↔ newWatcherErr = true := by
  cases newWatcherErr with
  | true => simp [NewWatcher]
  | false =>
    rcases goWalk_no_error addOK rootPath root with h | h <;>
      simp [NewWatcher, goWalkTop, h]

/-- C4 counterexample: the hidden directory `.github` is not named `.git`
and is not located inside the `.git` directory, yet the walker does not
skip it — the exception tests for the substring `.git` anywhere in the
path, which `.github` matches, so the directory is watched. -/
theorem c4_counterexample :
    goStartsWith (gs ".github") (gs ".") = true ∧
    ¬(gs ".github" = gs ".git") ∧
    insideDotGit (gs "/r/.github") = false ∧
    walkFilter (gs "/r/.github") (gs ".github") true = EntryDecision.watchDir := by
  decide

/-- C4 amended: during the initial walk a hidden entry (name starting with
`.`) is rejected — subtree pruned for a directory, entry skipped for a
file — exactly when its name is not `.git` AND its path does not contain
the substring `.git` anywhere (which admits `.git` itself, everything
under it, but also entries such as `.github` or `.gitignore`). -/
theorem c4_hidden_filter (path name : GoStr) (isDir : Bool)
    (h : goStartsWith name (gs ".") = true) :
    walkFilter path name isDir =
        (if isDir then EntryDecision.skipDirTree else EntryDecision.skipEntry) ↔
      (¬(name = gs ".git") ∧ goContains path (gs ".git") = false) := by
  have hn : ignoreNames.contains name = false := by
    cases hc : ignoreNames.contains name
    · rfl
    · exfalso
      obtain ⟨x, hx, hbeq⟩ := List.contains_iff_exists_mem_beq.mp hc
      obtain rfl : name = x := eq_of_beq hbeq
      have hp : (gs ".") <+: name := of_decide_eq_true h
      simp only [ignoreNames, List.mem_cons, List.not_mem_nil, or_false] at hx
      rcases hx with rfl | rfl | rfl | rfl <;> revert hp <;> decide
  unfold walkFilter
  rw [hn]
  simp only [Bool.false_eq_true, if_false]
  by_cases h1 : name = gs ".git"
  · have hcond : (goStartsWith name (gs ".") && !decide (name = gs ".git") &&
        !goContains path (gs ".git")) = false := by
      simp [h1]
    rw [hcond]
    simp only [Bool.false_eq_true, if_false]
    constructor
    · intro hcontra
      exfalso
      cases isDir <;> exact absurd hcontra (by decide)
    · rintro ⟨hne, -⟩
      exact absurd h1 hne
  · by_cases h2 : goContains path (gs ".git") = true
    · have hcond : (goStartsWith name (gs ".") && !decide (name = gs ".git") &&
          !goContains path (gs ".git")) = false := by
        simp [h2]
      rw [hcond]
      simp only [Bool.false_eq_true, if_false]
      constructor
      · intro hcontra
        exfalso
        cases isDir <;> exact absurd hcontra (by decide)
      · rintro ⟨-, hc⟩
        rw [h2] at hc
        exact absurd hc (by decide)
    · have hc2 : goContains path (gs ".git") = false := by
        cases hcg : goContains path (gs ".git")
        · rfl
        · exact absurd hcg h2
      have hcond : (goStartsWith name (gs ".") && !decide (name = gs ".git") &&
          !goContains path (gs ".git")) = true := by
        simp [h, h1, hc2]
      rw [hcond]
      simp only [if_true]
      exact ⟨fun _ => ⟨h1, hc2⟩, fun _ => by trivial⟩

/-- C4 witness: a hidden directory with no `.git` substring in its path is
pruned by the walker. -/
theorem c4_witness :
    walkFilter (gs "/r/.foo") (gs ".foo") true = EntryDecision.skipDirTree :=
  (c4_hidden_filter (gs "/r/.foo") (gs ".foo") true (by decide)).mpr (by decide)

/-- C5 counterexample: for the path `catalogs/.git/HEAD` — inside the
metadata directory, base name `HEAD`, matching none of the earlier
classifier rules, and NOT inside a logs directory — the classifier does
not return checkout: the rule tests for the substring `logs` anywhere in
the path, which the component `catalogs` matches, so the notification is
suppressed. -/
theorem c5_counterexample :
    goContains (gs "catalogs/.git/HEAD") (gs ".git") = true ∧
    filepathBase (gs "catalogs/.git/HEAD") = gs "HEAD" ∧
    goHasSuffix (gs "HEAD") (gs ".lock") = false ∧
    ¬(gs "HEAD" = gs "COMMIT_EDITMSG") ∧ ¬(gs "HEAD" = gs "MERGE_MSG") ∧
    goContains (gs "catalogs/.git/HEAD") (gs "refs/heads") = false ∧
    goContains (gs "catalogs/.git/HEAD") (gs "refs/remotes") = false ∧
    goContains (gs "catalogs/.git/HEAD") (gs "rebase-merge") = false ∧
    goContains (gs "catalogs/.git/HEAD") (gs "rebase-apply") = false ∧
    goContains (gs "catalogs/.git/HEAD") (gs "refs/stash") = false ∧
    insideLogsDir (gs "catalogs/.git/HEAD") = false ∧
    ¬(detectGitOperation (gs "catalogs/.git/HEAD") (gs "HEAD") = gs "checkout") := by
  decide

/-- C5 amended: for a metadata path with base name `HEAD` matching none of
the earlier classifier rules, the classifier returns checkout exactly when
the path does not contain the substring `logs` anywhere in it (rather than
"is not inside a logs directory"). -/
theorem c5_head_checkout (path : GoStr)
    (hgit : goContains path (gs ".git") = true)
    (h1 : goContains path (gs "refs/heads") = false)
    (h2 : goContains path (gs "refs/remotes") = false)
    (h3 : goContains path (gs "rebase-merge") = false)
    (h4 : goContains path (gs "rebase-apply") = false)
    (h5 : goContains path (gs "refs/stash") = false) :
    detectGitOperation path (gs "HEAD") = gs "checkout" ↔
      goContains path (gs "logs") = false := by
  have h1' : goContains path (gs "logs/refs/heads") = false :=
    goContains_false_mono (by decide) h1
  have h2' : goContains path (gs "logs/refs/remotes") = false :=
    goContains_false_mono (by decide) h2
  unfold detectGitOperation
  rw [if_neg (by decide)]
  rw [if_neg (by decide)]
  rw [h1, h1']
  simp only [Bool.or_self, Bool.false_eq_true, if_false]
  rw [h2, h2']
  simp only [Bool.or_self, Bool.false_eq_true, if_false]
  rw [if_neg (by decide), if_neg (by decide), if_neg (by decide)]
  rw [h3, h4]
  simp only [Bool.or_self, Bool.false_eq_true, if_false]
  rw [h5]
  simp only [Bool.false_or, decide_eq_true_eq]
  rw [if_neg (by decide)]
  cases hlogs : goContains path (gs "logs") <;> simp [hlogs] <;> decide

/-- C5 witness: `.git/HEAD` (no `logs` substring) classifies as checkout. -/
theorem c5_witness :
    detectGitOperation (gs ".git/HEAD") (gs "HEAD") = gs "checkout" :=
  (c5_head_checkout (gs ".git/HEAD") (by decide) (by decide) (by decide)
    (by decide) (by decide) (by decide)).mpr (by decide)

/-- C7: a metadata path containing the `refs/remotes` segment classifies
as push whenever the name does not end in `.lock`, is not a commit/merge
scratch name, and the path does not also contain `refs/heads`; and a
notification for `.git/refs/remotes/origin/main` produces an event with
`git_operation = push` whatever the filesystem answers. -/
theorem c7_refs_remotes_push :
    (∀ path name : GoStr,
        goHasSuffix name (gs ".lock") = false →
        ¬(name = gs "COMMIT_EDITMSG") → ¬(name = gs "MERGE_MSG") →
        goContains path (gs "refs/heads") = false →
        goContains path (gs "refs/remotes") = true →
        detectGitOperation path name = gs "push") ∧
    (∀ (root : GoStr) (env : Env), ∃ fe : FileEvent,
        processEvent root env
            { name := gs ".git/refs/remotes/origin/main",
              op := { create := false, write := true, remove := false,
                      rename := false, chmod := false } } = some fe ∧
        fe.gitOp = gs "push" ∧ fe.isGitOp = true ∧ fe.preview = none) := by
  constructor
  · intro path name hlock hc1 hc2 hheads hrem
    have hheads' : goContains path (gs "logs/refs/heads") = false :=
      goContains_false_mono (by decide) hheads
    unfold detectGitOperation
    rw [hlock]
    simp only [Bool.false_eq_true, if_false]
    rw [if_neg (by simp [hc1, hc2])]
    rw [hheads, hheads']
    simp only [Bool.or_self, Bool.false_eq_true, if_false]
    rw [hrem]
    simp
  · intro root env
    exact ⟨_, rfl, rfl, rfl, rfl⟩

/-- C7 witness: the classifier instance at the concrete remote-ref path. -/
theorem c7_witness :
    detectGitOperation (gs ".git/refs/remotes/origin/main") (gs "main") = gs "push" :=
  c7_refs_remotes_push.1 (gs ".git/refs/remotes/origin/main") (gs "main")
    (by decide) (by decide) (by decide) (by decide) (by decide)

lemma takeWhile_append_all {α : Type} (p : α → Bool) (a b : List α)
    (h : ∀ x ∈ a, p x = true) :
    (a ++ b).takeWhile p = a ++ b.takeWhile p :=
  List.takeWhile_append_of_pos h

/-- A suffix with no separator characters survives `filepath.Base`. -/
lemma suffix_filepathBase (p s : GoStr) (hne : s ≠ []) (hsep : '/' ∉ s)
    (h : s <:+ p) : s <:+ filepathBase p := by
  obtain ⟨r, rfl⟩ := h
  obtain ⟨c, t, hct⟩ : ∃ c t, s.reverse = c :: t := by
    cases hs : s.reverse with
    | nil => exact absurd (by simpa using hs) hne
    | cons c t => exact ⟨c, t, rfl⟩
  have hcs : c ∈ s := List.mem_reverse.mp (hct ▸ List.mem_cons_self c t)
  have hc : (c == '/') = false := by
    simp only [beq_eq_false_iff_ne, ne_eq]
    intro hcc
    exact hsep (hcc ▸ hcs)
  have hrev : (r ++ s).reverse = c :: (t ++ r.reverse) := by
    rw [List.reverse_append, hct]
    rfl
  unfold filepathBase
  rw [if_neg (by simp [hne])]
  have hdrop : ((r ++ s).reverse.dropWhile (fun x => x == '/')).reverse = r ++ s := by
    rw [hrev, List.dropWhile_cons_of_neg (by simp [hc]), ← hrev, List.reverse_reverse]
  rw [hdrop]
  rw [if_neg (by simp [hne])]
  rw [List.reverse_append]
  rw [takeWhile_append_all _ s.reverse r.reverse
    (by
      intro x hx
      have : x ∈ s := List.mem_reverse.mp hx
      simp only [Bool.not_eq_eq_eq_not, Bool.not_true, beq_eq_false_iff_ne, ne_eq]
      intro hxx
      exact hsep (hxx ▸ this))]
  rw [List.reverse_append, List.reverse_reverse]
  exact ⟨_, rfl⟩

/-- C3 counterexample: a `.lock` file outside the version-control metadata
directory is not suppressed — a write to `a.lock` in the watched root
produces an ordinary ChangeEvent, refuting "no ChangeEvent is ever
emitted ... regardless of where the lock file lives". -/
theorem c3_counterexample :
    goHasSuffix (gs "/r/a.lock") (gs ".lock") = true ∧
    processEvent (gs "/r")
        { statResult := none, fileContent := none, relResult := gs "a.lock", now := 0 }
        { name := gs "/r/a.lock",
          op := { create := false, write := true, remove := false,
                  rename := false, chmod := false } } =
      some { path := gs "a.lock", name := gs "a.lock", operation := gs "modified",
             time := 0, size := 0, isGitOp := false, gitOp := gs "",
             preview := none } := by
  decide

/-- C3 amended: a notification whose path both lies in the metadata
directory (contains the substring `.git`, the pipeline's test) and ends in
the lock-file suffix `.lock` never produces an event, regardless of the
mutation kind; outside the metadata directory the lock-file suffix is not
suppressed (see the counterexample). -/
theorem c3_lock_suppressed (root : GoStr) (env : Env) (ev : RawEvent)
    (hgit : goContains ev.name (gs ".git") = true)
    (hlock : goHasSuffix ev.name (gs ".lock") = true) :
    processEvent root env ev = none := by
  have hbase : goHasSuffix (filepathBase ev.name) (gs ".lock") = true := by
    apply decide_eq_true
    exact suffix_filepathBase ev.name (gs ".lock") (by decide) (by decide)
      (of_decide_eq_true hlock)
  have hdet : detectGitOperation ev.name (filepathBase ev.name) = gs "" := by
    unfold detectGitOperation
    rw [hbase]
    simp
  unfold processEvent
  dsimp only
  split
  · rfl
  · rw [hgit, hdet]
    simp

/-- C3 witness: a write to `.git/index.lock` is suppressed. -/
theorem c3_witness :
    processEvent (gs "/r")
        { statResult := none, fileContent := none, relResult := gs ".git/index.lock", now := 0 }
        { name := gs "/r/.git/index.lock",
          op := { create := true, write := false, remove := false,
                  rename := false, chmod := false } } = none :=
  c3_lock_suppressed (gs "/r") _ _ (by decide) (by decide)

/-- C1: every published ChangeEvent satisfies: `gitOp` is non-empty iff
`isGitOp` is true, and `preview` is non-nil only when `isGitOp` is false
and the mutation kind is created or modified. -/
theorem c1_event_invariants (root : GoStr) (env : Env) (ev : RawEvent)
    (fe : FileEvent) (h : processEvent root env ev = some fe) :
    (¬(fe.gitOp = gs "") ↔ fe.isGitOp = true) ∧
    (¬(fe.preview = none) →
      fe.isGitOp = false ∧
        (fe.operation = gs "created" ∨ fe.operation = gs "modified")) := by
  unfold processEvent at h
  dsimp only at h
  by_cases htmp : (goContains (filepathBase ev.name) (gs ".tmp") ||
      goHasSuffix (filepathBase ev.name) (gs "~") ||
      goStartsWith (filepathBase ev.name) (gs "#")) = true
  · rw [if_pos htmp] at h
    cases h
  · rw [if_neg htmp] at h
    cases hG : goContains ev.name (gs ".git") with
    | true =>
      rw [hG] at h
      by_cases hdet : detectGitOperation ev.name (filepathBase ev.name) = gs ""
      · simp [hdet] at h
      · rw [if_neg (by simp [hdet])] at h
        rw [if_neg (by simp)] at h
        cases hop : opKind ev.op with
        | none => simp [hop] at h
        | some op =>
          simp only [hop] at h
          rw [Option.some_inj] at h
          subst h
          constructor
          · simp [hdet]
          · intro hp
            exact absurd (by simp) hp
    | false =>
      rw [hG] at h
      simp only [Bool.false_and, Bool.false_eq_true, if_false, Bool.not_false,
        Bool.true_and] at h
      by_cases hhid : goStartsWith (filepathBase ev.name) (gs ".") = true
      · rw [if_pos hhid] at h
        cases h
      · rw [if_neg hhid] at h
        cases hop : opKind ev.op with
        | none => simp [hop] at h
        | some op =>
          simp only [hop] at h
          rw [Option.some_inj] at h
          subst h
          refine ⟨by simp, ?_⟩
          intro hp
          refine ⟨rfl, ?_⟩
          by_cases hcond : (decide (op = gs "modified") || decide (op = gs "created")) = true
          · rcases Bool.or_eq_true_iff.mp hcond with hm | hc
            · exact Or.inr (of_decide_eq_true hm)
            · exact Or.inl (of_decide_eq_true hc)
          · exfalso
            apply hp
            simp only [Bool.or_eq_true_iff, not_or] at hcond
            simp [Bool.eq_false_iff.mpr hcond.1, Bool.eq_false_iff.mpr hcond.2]

/-- C10: a notification whose path contains the substring `.git` anywhere
is treated as a git operation — any event it produces has
`is_git_operation = true` with a non-empty named operation, and it
produces no event at all when the classifier names no operation; in
particular any mutation of `.gitignore` in the watched root produces no
ChangeEvent. -/
theorem c10_git_substring (root : GoStr) (env : Env) (ev : RawEvent)
    (h : goContains ev.name (gs ".git") = true) :
    (∀ fe : FileEvent, processEvent root env ev = some fe →
        fe.isGitOp = true ∧ ¬(fe.gitOp = gs "")) ∧
    (detectGitOperation ev.name (filepathBase ev.name) = gs "" →
        processEvent root env ev = none) ∧
    (∀ (env2 : Env) (op2 : FsnotifyOp),
        processEvent (gs "/home/u/proj") env2
          { name := gs "/home/u/proj/.gitignore", op := op2 } = none) := by
  refine ⟨?_, ?_, ?_⟩
  · intro fe hfe
    unfold processEvent at hfe
    dsimp only at hfe
    by_cases htmp : (goContains (filepathBase ev.name) (gs ".tmp") ||
        goHasSuffix (filepathBase ev.name) (gs "~") ||
        goStartsWith (filepathBase ev.name) (gs "#")) = true
    · rw [if_pos htmp] at hfe
      cases hfe
    · rw [if_neg htmp] at hfe
      rw [h] at hfe
      by_cases hdet : detectGitOperation ev.name (filepathBase ev.name) = gs ""
      · simp [hdet] at hfe
      · rw [if_neg (by simp [hdet])] at hfe
        rw [if_neg (by simp)] at hfe
        cases hop : opKind ev.op with
        | none => simp [hop] at hfe
        | some op =>
          simp only [hop] at hfe
          rw [Option.some_inj] at hfe
          subst hfe
          exact ⟨rfl, by simpa using hdet⟩
  · intro hdet
    unfold processEvent
    dsimp only
    by_cases htmp : (goContains (filepathBase ev.name) (gs ".tmp") ||
        goHasSuffix (filepathBase ev.name) (gs "~") ||
        goStartsWith (filepathBase ev.name) (gs "#")) = true
    · rw [if_pos htmp]
    · rw [if_neg htmp]
      rw [h]
      simp [hdet]
  · intro env2 op2
    rfl

/-- C10 witness: a chmod notification for `.gitignore` under a watched
root produces nothing (the classifier names no operation for it). -/
theorem c10_witness :
    processEvent (gs "/r")
        { statResult := none, fileContent := none, relResult := gs ".gitignore", now := 0 }
        { name := gs "/r/.gitignore",
          op := { create := false, write := false, remove := false,
                  rename := false, chmod := true } } = none :=
  (c10_git_substring (gs "/r")
      { statResult := none, fileContent := none, relResult := gs ".gitignore", now := 0 }
      { name := gs "/r/.gitignore",
        op := { create := false, write := false, remove := false,
                rename := false, chmod := true } }
      (by decide)).2.1 (by decide)

/-- C1 witness: a concrete ordinary modification event satisfies the
invariants. -/
theorem c1_witness :
    processEvent (gs "/r")
        { statResult := some (false, 5), fileContent := some (bytesOf "hi"),
          relResult := gs "a.txt", now := 7 }
        { name := gs "/r/a.txt",
          op := { create := false, write := true, remove := false,
                  rename := false, chmod := false } } =
      some { path := gs "a.txt", name := gs "a.txt", operation := gs "modified",
             time := 7, size := 5, isGitOp := false, gitOp := gs "",
             preview := some [bytesOf "hi"] } ∧
    ((¬((gs "" : GoStr) = gs "") ↔ false = true) ∧
      (¬((some [bytesOf "hi"] : Option (List (List Nat))) = none) →
        false = false ∧
          ((gs "modified" : GoStr) = gs "created" ∨
            (gs "modified" : GoStr) = gs "modified"))) := by
  constructor
  · decide
  · exact c1_event_invariants (gs "/r")
      { statResult := some (false, 5), fileContent := some (bytesOf "hi"),
        relResult := gs "a.txt", now := 7 }
      { name := gs "/r/a.txt",
        op := { create := false, write := true, remove := false,
                rename := false, chmod := false } }
      { path := gs "a.txt", name := gs "a.txt", operation := gs "modified",
        time := 7, size := 5, isGitOp := false, gitOp := gs "",
        preview := some [bytesOf "hi"] }
      (by decide)

lemma truncLine_length (x : List Nat) : (truncLine x).length ≤ 60 := by
  unfold truncLine
  split_ifs with hl
  · have h3 : (bytesOf "...").length = 3 := rfl
    rw [List.length_append, List.length_take, h3]
    omega
  · omega

/-- The collection loop equals "take the last `n - acc.length` non-blank
trimmed lines, truncate, keep original order, and append the accumulator". -/
lemma previewLoop_eq (n : Nat) (rev : List (List Nat)) :
    ∀ acc : List (List Nat), acc.length ≤ n →
      previewLoop n rev acc =
        ((((rev.map trimSpace).filter (fun t => decide (¬ t = []))).take
              (n - acc.length)).map truncLine).reverse ++ acc := by
  induction rev with
  | nil =>
    intro acc hacc
    have hnil : previewLoop n [] acc = acc := rfl
    rw [hnil]
    simp
  | cons l rest ih =>
    intro acc hacc
    by_cases hfull : acc.length < n
    · unfold previewLoop
      rw [if_pos hfull]
      dsimp only
      by_cases ht : trimSpace l = []
      · rw [if_pos ht]
        rw [ih acc hacc]
        simp [ht]
      · rw [if_neg ht]
        rw [ih (truncLine (trimSpace l) :: acc) (by simp only [List.length_cons]; omega)]
        have hsub : n - acc.length = (n - (acc.length + 1)) + 1 := by omega
        rw [List.map_cons, List.filter_cons, if_pos (by simpa using ht)]
        rw [hsub, List.take_succ_cons, List.map_cons, List.reverse_cons,
          List.append_assoc, List.singleton_append]
        simp only [List.length_cons]
    · have heq : acc.length = n := by omega
      unfold previewLoop
      rw [if_neg hfull]
      simp [heq]

/-- C6: for every successfully read content, `getFilePreview` returns
exactly what the spec prescribes — the binary sentinel, or the last
up-to-`maxLines` non-blank trimmed lines in original order (`none` when
there are none) — and every returned line is at most 60 bytes long. -/
theorem c6_preview_refines (data : List Nat) (maxLines : Nat) :
    getFilePreview (some data) maxLines = previewSpec data maxLines ∧
    ∀ l ∈ (getFilePreview (some data) maxLines).getD [], l.length ≤ 60 := by
  have key : previewLoop maxLines (splitOnByte 10 data).reverse [] =
      (((((splitOnByte 10 data).map trimSpace).filter
            (fun t => decide (¬ t = []))).reverse.take maxLines).reverse).map
        truncLine := by
    rw [previewLoop_eq maxLines _ [] (by simp)]
    simp only [List.length_nil, Nat.sub_zero, List.append_nil]
    rw [List.map_reverse, List.filter_reverse, ← List.map_reverse]
  constructor
  · unfold getFilePreview previewSpec
    dsimp only
    by_cases hb : isBinary data = true
    · rw [if_pos hb, if_pos hb]
    · rw [if_neg hb, if_neg hb]
      rw [key]
      by_cases hk : (((((splitOnByte 10 data).map trimSpace).filter
            (fun t => decide (¬ t = []))).reverse.take maxLines).reverse :
          List (List Nat)) = []
      · rw [if_pos (by rw [hk]; rfl), if_pos hk]
      · rw [if_neg (fun hcontra => hk (by simpa using hcontra)), if_neg hk]
  · intro l hl
    cases hgp : getFilePreview (some data) maxLines with
    | none => rw [hgp] at hl; simp at hl
    | some res =>
      rw [hgp] at hl
      unfold getFilePreview at hgp
      dsimp only at hgp
      by_cases hb : isBinary data = true
      · rw [if_pos hb, Option.some_inj] at hgp
        subst hgp
        simp only [Option.getD_some, List.mem_singleton] at hl
        subst hl
        decide
      · rw [if_neg hb] at hgp
        by_cases hp : previewLoop maxLines (splitOnByte 10 data).reverse [] = []
        · rw [if_pos hp] at hgp
          cases hgp
        · rw [if_neg hp, Option.some_inj] at hgp
          subst hgp
          simp only [Option.getD_some] at hl
          rw [key] at hl
          obtain ⟨x, hx, rfl⟩ := List.mem_map.mp hl
          exact truncLine_length x

/-- C6 witness: the extractor agrees with the spec on a concrete two-line
file and the returned first line respects the width bound. -/
theorem c6_witness :
    getFilePreview (some (bytesOf "x\ny\n")) 3 = previewSpec (bytesOf "x\ny\n") 3 ∧
    (bytesOf "x").length ≤ 60 :=
  ⟨(c6_preview_refines (bytesOf "x\ny\n") 3).1,
   (c6_preview_refines (bytesOf "x\ny\n") 3).2 (bytesOf "x") (by decide)⟩

/-- C8 witness: two identical successive write notifications for the same
file each produce their own event, in order. -/
theorem c8_witness :
    runLoop (gs "/r")
        [({ statResult := none, fileContent := none, relResult := gs "b.txt", now := 1 },
          { name := gs "/r/b.txt",
            op := { create := false, write := true, remove := false,
                    rename := false, chmod := false } }),
         ({ statResult := none, fileContent := none, relResult := gs "b.txt", now := 1 },
          { name := gs "/r/b.txt",
            op := { create := false, write := true, remove := false,
                    rename := false, chmod := false } })] =
      [{ path := gs "b.txt", name := gs "b.txt", operation := gs "modified",
         time := 1, size := 0, isGitOp := false, gitOp := gs "", preview := none },
       { path := gs "b.txt", name := gs "b.txt", operation := gs "modified",
         time := 1, size := 0, isGitOp := false, gitOp := gs "", preview := none }] :=
  (c8_order_no_coalesce (gs "/r")).2.2
    { statResult := none, fileContent := none, relResult := gs "b.txt", now := 1 }
    { name := gs "/r/b.txt",
      op := { create := false, write := true, remove := false,
              rename := false, chmod := false } }
    { path := gs "b.txt", name := gs "b.txt", operation := gs "modified",
      time := 1, size := 0, isGitOp := false, gitOp := gs "", preview := none }
    (by decide)
